import Mathlib

/-
Shallow embedding of the release-notes data pipeline of this repository:
the schema validator (src/data/validation.ts), the release repository
(src/data/utils.ts) and the filter-panel / sticky-outline islands
(src/islands/FilterPanel.tsx).  Loops become structural recursion, the
ambient clock (new Date()) becomes an explicit currentYear argument, and
the host time zone is fixed to UTC throughout.
-/

/-! ### ECMAScript string and number primitives -/

/-- Splitting a character list on a separator character, keeping empty
pieces, as String.prototype.split with a one-character separator does:
the empty input yields one empty piece, a trailing separator yields a
trailing empty piece. -/
def splitOnChar (c : Char) : List Char → List (List Char)
  | [] => [[]]
  | x :: xs =>
    let rest := splitOnChar c xs
    if x = c then [] :: rest
    else
      match rest with
      | [] => [[x]]
      | r :: rs => (x :: r) :: rs

/-- Value of a run of decimal digit characters, most significant first. -/
def digitsVal (cs : List Char) : Nat :=
  cs.foldl (fun n c => 10 * n + (c.toNat - 48)) 0

/-- The Number conversion applied to one version segment (a piece produced
by splitting on a dot): the empty string converts to 0, an optional sign
followed by decimal digits converts to that integer, and any other string
is NaN, rendered as none.  Exotic numeric forms that contain no dot yet are
not plain signed integers (hexadecimal, exponent and whitespace forms) are
outside the model and also map to none. -/
def jsNumberOfSegment (cs : List Char) : Option Int :=
  if cs = [] then some 0
  else if cs.all Char.isDigit then some (digitsVal cs)
  else
    match cs with
    | '-' :: rest =>
      if rest ≠ [] ∧ rest.all Char.isDigit then some (-(digitsVal rest : Int)) else none
    | '+' :: rest =>
      if rest ≠ [] ∧ rest.all Char.isDigit then some ((digitsVal rest : Int)) else none
    | _ => none

/-! ### Dotted-numeric version comparison (compareVersions, src/data/utils.ts) -/

/-- Remaining iterations of the comparison loop once the second segment
list is exhausted: each remaining left segment is compared against the 0
padding. -/
def cmpTailNil : List Int → Int
  | [] => 0
  | x :: xs => if x > 0 then 1 else if x < 0 then -1 else cmpTailNil xs

/-- Remaining iterations of the comparison loop once the first segment
list is exhausted: the 0 padding is compared against each remaining right
segment. -/
def cmpNilTail : List Int → Int
  | [] => 0
  | y :: ys => if (0 : Int) > y then 1 else if (0 : Int) < y then -1 else cmpNilTail ys

/-- The index loop of compareVersions: corresponding segments are compared
left to right, a missing segment reading as 0 exactly as the or-0 coercion
of the source does for out-of-range indices; the first strict inequality
decides.  The loop over the maximum length is rendered as recursion on the
two lists, the exhausted-list cases supplying the 0 padding. -/
def cmpSegs : List Int → List Int → Int
  | [], ys => cmpNilTail ys
  | x :: xs, [] => if x > 0 then 1 else if x < 0 then -1 else cmpTailNil xs
  | x :: xs, y :: ys => if x > y then 1 else if x < y then -1 else cmpSegs xs ys

/-- The segment list split(dot).map(Number) with the or-0 coercion of the
comparison loop already applied to each present segment, so a NaN segment
reads as 0; compareVersions only ever reads segments through that
coercion. -/
def versionSegments (v : String) : List Int :=
  (splitOnChar '.' v.toList).map (fun s => (jsNumberOfSegment s).getD 0)

/-- compareVersions (src/data/utils.ts lines 119-134). -/
def compareVersions (a b : String) : Int :=
  cmpSegs (versionSegments a) (versionSegments b)

/-- Head of a padded segment list: a missing segment reads as 0. -/
def hdSeg : List Int → Int
  | [] => 0
  | x :: _ => x

/-- Tail of a padded segment list: the tail of an exhausted list stays
exhausted. -/
def tlSeg : List Int → List Int
  | [] => []
  | _ :: xs => xs

/-! ### ISO-8601 UTC dates: the zod datetime shape and Date parsing -/

/-- One parsed UTC date-time, split into calendar and clock fields. -/
structure DateParts where
  year : Nat
  month : Nat
  day : Nat
  hour : Nat
  minute : Nat
  second : Nat
  msec : Nat
deriving DecidableEq, Repr

/-- Gregorian leap-year rule, as encoded by the zod date pattern. -/
def isLeapYear (y : Nat) : Bool :=
  (y % 4 == 0 && y % 100 != 0) || y % 400 == 0

/-- Days in a month of a given year. -/
def daysInMonth (y m : Nat) : Nat :=
  if m = 2 then (if isLeapYear y then 29 else 28)
  else if m = 4 ∨ m = 6 ∨ m = 9 ∨ m = 11 then 30
  else 31

/-- Checks a fixed-width run of decimal digits and returns its value. -/
def fixedDigits (n : Nat) (cs : List Char) : Option Nat :=
  if cs.length = n ∧ cs.all Char.isDigit then some (digitsVal cs) else none

/-- Parses and range-checks a calendar date written YYYY-MM-DD. -/
def parseDatePart (cs : List Char) : Option (Nat × Nat × Nat) :=
  match splitOnChar '-' cs with
  | [ys, ms, ds] =>
    match fixedDigits 4 ys, fixedDigits 2 ms, fixedDigits 2 ds with
    | some y, some m, some d =>
      if 1 ≤ m ∧ m ≤ 12 ∧ 1 ≤ d ∧ d ≤ daysInMonth y m then some (y, m, d) else none
    | _, _, _ => none
  | _ => none

/-- Parses a seconds component SS or SS.fraction, returning the seconds and
the millisecond value of the fraction (at most millisecond precision is
kept, shorter fractions are scaled up). -/
def parseSecFrac (cs : List Char) : Option (Nat × Nat) :=
  match splitOnChar '.' cs with
  | [ss] =>
    match fixedDigits 2 ss with
    | some s => if s ≤ 59 then some (s, 0) else none
    | none => none
  | [ss, fs] =>
    match fixedDigits 2 ss with
    | some s =>
      if s ≤ 59 ∧ fs ≠ [] ∧ fs.all Char.isDigit then
        some (s, digitsVal ((fs ++ ['0', '0', '0']).take 3))
      else none
    | none => none
  | _ => none

/-- Parses and range-checks a clock time HH:MM:SS(.fraction)?; when
allowShort is true the HH:MM form that Date also accepts is admitted. -/
def parseTimePart (allowShort : Bool) (cs : List Char) : Option (Nat × Nat × Nat × Nat) :=
  match splitOnChar ':' cs with
  | [hs, ms] =>
    if allowShort then
      match fixedDigits 2 hs, fixedDigits 2 ms with
      | some h, some mi => if h ≤ 23 ∧ mi ≤ 59 then some (h, mi, 0, 0) else none
      | _, _ => none
    else none
  | [hs, ms, rest] =>
    match fixedDigits 2 hs, fixedDigits 2 ms, parseSecFrac rest with
    | some h, some mi, some sf => if h ≤ 23 ∧ mi ≤ 59 then some (h, mi, sf.1, sf.2) else none
    | _, _, _ => none
  | _ => none

/-- The UTC date-time shape accepted by the datetime check of the schema
(z.string().datetime(), no offsets): YYYY-MM-DDTHH:MM:SS(.digits)?Z with
calendar ranges, leap years and clock ranges checked exactly as the zod
pattern checks them. -/
def zodParseDatetime (s : String) : Option DateParts :=
  match splitOnChar 'T' s.toList with
  | [ds, ts] =>
    match parseDatePart ds with
    | some ymd =>
      if ts.getLast? = some 'Z' then
        match parseTimePart false ts.dropLast with
        | some hmsf => some ⟨ymd.1, ymd.2.1, ymd.2.2, hmsf.1, hmsf.2.1, hmsf.2.2.1, hmsf.2.2.2⟩
        | none => none
      else none
    | none => none
  | _ => none

/-- Boolean form of the zod datetime check. -/
def zodDatetimeValid (s : String) : Bool :=
  (zodParseDatetime s).isSome

/-- Date parsing (new Date(s)) restricted to the ISO date-time string
format with the host environment fixed to UTC: a date-only form YYYY-MM-DD
reads as UTC midnight, a combined form YYYY-MM-DDTHH:MM(:SS(.digits)?)?
takes an optional trailing Z designator (with the environment fixed to UTC
the designator-free local-time form denotes the same instant).  Numeric
offsets and non-ISO inputs are outside the model and yield none, the
rendering of an invalid date. -/
def jsParseDate (s : String) : Option DateParts :=
  match splitOnChar 'T' s.toList with
  | [ds] =>
    match parseDatePart ds with
    | some ymd => some ⟨ymd.1, ymd.2.1, ymd.2.2, 0, 0, 0, 0⟩
    | none => none
  | [ds, ts] =>
    match parseDatePart ds with
    | some ymd =>
      match parseTimePart true (if ts.getLast? = some 'Z' then ts.dropLast else ts) with
      | some hmsf => some ⟨ymd.1, ymd.2.1, ymd.2.2, hmsf.1, hmsf.2.1, hmsf.2.2.1, hmsf.2.2.2⟩
      | none => none
    | none => none
  | _ => none

/-- Day number of a civil date with the year shifted by +400 so the
era-based civil-to-days computation stays within Nat. -/
def daysFromCivilShifted (y m d : Nat) : Nat :=
  let ya := if m ≤ 2 then y - 1 else y
  let era := ya / 400
  let yoe := ya - era * 400
  let mp := if m > 2 then m - 3 else m + 9
  let doy := (153 * mp + 2) / 5 + (d - 1)
  let doe := yoe * 365 + yoe / 4 - yoe / 100 + yoe / 400 + doy
  era * 146097 + doe

/-- Milliseconds since the Unix epoch of a parsed UTC date-time: the value
getTime() yields for it. -/
def epochMs (p : DateParts) : Int :=
  ((daysFromCivilShifted (p.year + 400) p.month p.day : Int) - 865565) * 86400000
    + ((p.hour * 3600000 + p.minute * 60000 + p.second * 1000 + p.msec : Nat) : Int)

/-- new Date(dateString).getTime(); none renders NaN (an invalid date). -/
def dateGetTime (s : String) : Option Int :=
  (jsParseDate s).map epochMs

/-- new Date(dateString).getFullYear() with the environment fixed to UTC;
none renders NaN (an invalid date). -/
def dateGetFullYear (s : String) : Option Int :=
  (jsParseDate s).map (fun p => (p.year : Int))

/-! ### The data model (src/types/release.ts, src/data/validation.ts) -/

/-- The closed release-type enumeration. -/
inductive ReleaseType where
  | initial
  | major
  | minor
  | patch
  | hotfix
deriving DecidableEq, Repr

/-- The string value a ReleaseType carries at runtime. -/
def releaseTypeToString : ReleaseType → String
  | .initial => "initial"
  | .major => "major"
  | .minor => "minor"
  | .patch => "patch"
  | .hotfix => "hotfix"

/-- Membership test plus cast used when reading a release type back from a
string: exactly the five enumeration strings succeed. -/
def releaseTypeOfString (s : String) : Option ReleaseType :=
  if s = "initial" then some .initial
  else if s = "major" then some .major
  else if s = "minor" then some .minor
  else if s = "patch" then some .patch
  else if s = "hotfix" then some .hotfix
  else none

/-- The closed date-range enumeration. -/
inductive DateRange where
  | thisYear
  | lastYear
  | older
deriving DecidableEq, Repr

/-- The string value a DateRange carries at runtime. -/
def dateRangeToString : DateRange → String
  | .thisYear => "thisYear"
  | .lastYear => "lastYear"
  | .older => "older"

/-- Membership test plus cast used when reading a date range back from a
string: exactly the three enumeration strings succeed. -/
def dateRangeOfString (s : String) : Option DateRange :=
  if s = "thisYear" then some .thisYear
  else if s = "lastYear" then some .lastYear
  else if s = "older" then some .older
  else none

/-- One release record in the current nested-content shape: content maps
open section keys to string lists, rendered as an association list in
insertion order. -/
structure Release where
  version : String
  date : String
  type : ReleaseType
  content : List (String × List String)
deriving DecidableEq, Repr

/-- FilterState: every field optional, absence meaning no constraint. -/
structure FilterState where
  version : Option String := none
  dateRange : Option DateRange := none
  type : Option ReleaseType := none
deriving DecidableEq, Repr

/-- A release record that passes ReleaseSchema (src/data/validation.ts):
version non-empty and date in the zod UTC datetime shape; the type and
content fields are schema-valid by construction of their Lean types. -/
def releaseSchemaValid (r : Release) : Bool :=
  (r.version != "") && zodDatetimeValid r.date

/-! ### The release repository (src/data/utils.ts) -/

/-- isInDateRange (src/data/utils.ts lines 101-117).  The ambient clock
new Date() is made explicit as the currentYear argument; a year of none
renders the NaN year of an invalid date, whose comparisons are all
false. -/
def isInDateRange (dateString : String) (range : DateRange) (currentYear : Int) : Bool :=
  match range with
  | .thisYear => dateGetFullYear dateString == some currentYear
  | .lastYear => dateGetFullYear dateString == some (currentYear - 1)
  | .older =>
    match dateGetFullYear dateString with
    | some releaseYear => decide (releaseYear < currentYear - 1)
    | none => false

/-- The truthiness test applied to an optional string field: undefined and
the empty string are falsy, every other string is truthy. -/
def optStrTruthy : Option String → Bool
  | none => false
  | some s => s != ""

/-- The filter callback of filterReleases (src/data/utils.ts lines 65-82):
a release passes when none of the three early-return guards rejects it. -/
def releasePasses (filters : FilterState) (currentYear : Int) (release : Release) : Bool :=
  (match filters.version with
   | some v => !(v != "" && release.version != v)
   | none => true)
  && (match filters.dateRange with
      | some dr => !(!(isInDateRange release.date dr currentYear))
      | none => true)
  && (match filters.type with
      | some t => !(release.type != t)
      | none => true)

/-- filterReleases (src/data/utils.ts lines 64-83) with the ambient clock
explicit.  Array.prototype.filter builds a fresh order-preserving
subsequence and never mutates its receiver; List.filter is its exact pure
counterpart. -/
def filterReleases (releases : List Release) (filters : FilterState) (currentYear : Int) :
    List Release :=
  releases.filter (releasePasses filters currentYear)

/-- The sort comparator of sortReleases (src/data/utils.ts lines 55-61):
date difference newest first, then compareVersions on the flipped pair.
When either getTime is NaN the subtraction is NaN, the NaN passes the
not-equal-zero test and is returned; Array.prototype.sort maps a NaN
comparator value to +0 (SortCompare), so that case is rendered as 0. -/
def releaseCompare (a b : Release) : Int :=
  match dateGetTime b.date, dateGetTime a.date with
  | some tb, some ta =>
    let dateCompare := tb - ta
    if dateCompare ≠ 0 then dateCompare else compareVersions b.version a.version
  | _, _ => 0

/-- sortReleases (src/data/utils.ts lines 53-62).  Array.prototype.sort is
specified as a stable comparator sort; a stable insertion sort realises the
same mandated result for a consistent comparator. -/
def sortReleases (releases : List Release) : List Release :=
  releases.insertionSort (fun a b => releaseCompare a b ≤ 0)

/-- getUniqueVersions (src/data/utils.ts lines 85-87): first-seen order. -/
def getUniqueVersions (releases : List Release) : List String :=
  (releases.map (fun r => r.version)).dedup

/-- The ordering the specification states for the release feed: primary
key date, most recent first; ties broken by dotted-numeric version,
descending. -/
def specSortedBefore (a b : Release) : Prop :=
  ∃ ta tb, dateGetTime a.date = some ta ∧ dateGetTime b.date = some tb ∧
    (tb < ta ∨ (ta = tb ∧ 0 ≤ compareVersions a.version b.version))

/-- The matching rule as the specification words it: every constraint
present in the FilterState must hold of the release (version equality,
date-range membership, type equality); absent constraints hold
vacuously. -/
def specMatches (filters : FilterState) (currentYear : Int) (release : Release) : Bool :=
  (match filters.version with
   | some v => release.version == v
   | none => true)
  && (match filters.dateRange with
      | some dr => isInDateRange release.date dr currentYear
      | none => true)
  && (match filters.type with
      | some t => release.type == t
      | none => true)

/-- The matching rule the code implements: as specMatches, except that a
version constraint carrying the empty string is treated as absent, because
the guard tests truthiness rather than presence. -/
def specMatchesAmended (filters : FilterState) (currentYear : Int) (release : Release) : Bool :=
  (match filters.version with
   | some v => if v = "" then true else release.version == v
   | none => true)
  && (match filters.dateRange with
      | some dr => isInDateRange release.date dr currentYear
      | none => true)
  && (match filters.type with
      | some t => release.type == t
      | none => true)

/-! ### Raw JSON values and the schema validator (src/data/validation.ts) -/

/-- A parsed JSON value.  Numbers carry an Int payload: the pipeline never
inspects a numeric payload, it only distinguishes numbers from strings and
arrays, so fractional payloads are not needed.  Objects are association
lists in insertion order; inputs produced by JSON parsing have distinct
keys, and field lookup takes the first match. -/
inductive JValue where
  | null
  | bool (b : Bool)
  | num (n : Int)
  | str (s : String)
  | arr (elems : List JValue)
  | obj (fields : List (String × JValue))

/-- Property read on a JSON value: a named field of an object, undefined
(none) on everything else. -/
def JValue.getField : JValue → String → Option JValue
  | .obj fields, k => fields.lookup k
  | _, _ => none

/-- Array.isArray. -/
def JValue.isArray : JValue → Bool
  | .arr _ => true
  | _ => false

/-- An array whose elements are all strings: the test the extra-field scan
applies (Array.isArray plus an every-typeof-string check). -/
def isStringArray : JValue → Bool
  | .arr xs => xs.all (fun v => match v with | .str _ => true | _ => false)
  | _ => false

/-- The typeof-object-and-not-null test: true of objects and arrays, false
of null (excluded explicitly in the source) and of every primitive. -/
def JValue.isNonNullObject : JValue → Bool
  | .obj _ => true
  | .arr _ => true
  | _ => false

/-- Projection of an optional JSON value to a string, as z.string() admits. -/
def jstr : Option JValue → Option String
  | some (.str s) => some s
  | _ => none

/-- Element-wise validation of a list: every element must parse, any
failing element fails the whole list (the all-or-nothing behaviour of a
zod array or record parse). -/
def optionMapList (f : α → Option β) : List α → Option (List β)
  | [] => some []
  | x :: xs =>
    match f x, optionMapList f xs with
    | some y, some ys => some (y :: ys)
    | _, _ => none

/-- z.array(z.string()): the element list when every element is a string. -/
def stringArray : JValue → Option (List String)
  | .arr xs => optionMapList (fun v => match v with | .str s => some s | _ => none) xs
  | _ => none

/-- z.record(z.string(), z.array(z.string())) applied to the content field:
a plain object each of whose values is a string array; arrays and
primitives are rejected. -/
def zodParseContent : Option JValue → Option (List (String × List String))
  | some (.obj fields) =>
    optionMapList (fun kv => (stringArray kv.2).map (fun l => (kv.1, l))) fields
  | _ => none

/-- ReleaseSchema.safeParse on one element (src/data/validation.ts lines
7-12): version a non-empty string, date a string in the zod UTC datetime
shape, type one of the enumeration strings, content a record of string
arrays.  Unknown keys are stripped, a missing field and a field holding
undefined fail alike. -/
def zodParseRelease (v : JValue) : Option Release :=
  match jstr (v.getField "version") with
  | some version =>
    if version = "" then none
    else
      match jstr (v.getField "date") with
      | some date =>
        if zodDatetimeValid date then
          match (jstr (v.getField "type")).bind releaseTypeOfString,
              zodParseContent (v.getField "content") with
          | some ty, some content => some ⟨version, date, ty, content⟩
          | _, _ => none
        else none
      | none => none
  | none => none

/-- ReleasesArraySchema.safeParse: an array each of whose elements parses;
any failing element fails the whole parse. -/
def zodParseReleases : JValue → Option (List Release)
  | .arr xs => optionMapList zodParseRelease xs
  | _ => none

/-! ### Legacy-format recovery and loadReleases (src/data/utils.ts) -/

/-- The field names the extra-field scan of the legacy transform skips. -/
def reservedLegacyKeys : List String :=
  ["version", "date", "type", "highlights", "features", "improvements", "bugfixes", "content"]

/-- Object.entries: the fields of an object in insertion order, the
indexed elements of an array, the indexed one-character strings of a
string, and nothing on the remaining primitives. -/
def jsEntries : JValue → List (String × JValue)
  | .obj fields => fields
  | .arr xs => xs.enum.map (fun p => (toString p.1, p.2))
  | .str s => s.toList.enum.map (fun p => (toString p.1, JValue.str (String.singleton p.2)))
  | _ => []

/-- An optional field of an object literal: present when the source read
produced a value, absent when it produced undefined (an undefined-valued
required field fails schema validation exactly as a missing one does). -/
def optField (k : String) : Option JValue → List (String × JValue)
  | some v => [(k, v)]
  | none => []

/-- The four fixed-order conditional assignments of the legacy transform:
each legacy field present as an array is copied into the content record
(only Array.isArray is tested, element types are not). -/
def legacyCollectedContent (item : JValue) : List (String × JValue) :=
  ["highlights", "features", "improvements", "bugfixes"].filterMap
    (fun k => match item.getField k with
      | some v => if v.isArray then some (k, v) else none
      | none => none)

/-- The extra-field scan of the legacy transform: every own field outside
the reserved names whose value is an array of strings, in entries order. -/
def legacyExtraContent (item : JValue) : List (String × JValue) :=
  (jsEntries item).filter
    (fun kv => !(reservedLegacyKeys.contains kv.1) && isStringArray kv.2)

/-- The content value the legacy transform ends with: an already-present
content field is preferred when it is a non-null object (arrays included,
since typeof yields object for them), otherwise the reconstructed
record. -/
def legacyFinalContent (item : JValue) : JValue :=
  match item.getField "content" with
  | some c =>
    if c.isNonNullObject then c
    else JValue.obj (legacyCollectedContent item ++ legacyExtraContent item)
  | none => JValue.obj (legacyCollectedContent item ++ legacyExtraContent item)

/-- The legacy-format transform applied to each element when direct
validation fails (src/data/utils.ts lines 18-37): the source record read
destructures version, date and type, rebuilds the content record from the
legacy fields and the extra-field scan, prefers an already-present
object-typed content field, and emits the four-field record. -/
def transformLegacyItem (item : JValue) : JValue :=
  JValue.obj (optField "version" (item.getField "version")
    ++ optField "date" (item.getField "date")
    ++ optField "type" (item.getField "type")
    ++ [("content", legacyFinalContent item)])

/-- loadReleases (src/data/utils.ts lines 4-51) on an already-parsed JSON
module value: direct validation, then the legacy transform and a second
validation, and otherwise the single uniform failure the surrounding catch
rethrows; no partial result exists on any path. -/
def loadReleases (raw : JValue) : Except String (List Release) :=
  match zodParseReleases raw with
  | some rs => .ok (sortReleases rs)
  | none =>
    let legacyArray := match raw with | .arr xs => xs | _ => []
    match zodParseReleases (.arr (legacyArray.map transformLegacyItem)) with
    | some rs => .ok (sortReleases rs)
    | none => .error "Failed to load release data"

/-- The claimed collection step, as the specification words it: the four
legacy fields are collected when present as string arrays. -/
def claimedCollectedContent (item : JValue) : List (String × JValue) :=
  ["highlights", "features", "improvements", "bugfixes"].filterMap
    (fun k => match item.getField k with
      | some v => if isStringArray v then some (k, v) else none
      | none => none)

/-- The claimed content value, as the specification words it: an
already-present content field is always preferred over the reconstructed
record. -/
def claimedFinalContent (item : JValue) : JValue :=
  match item.getField "content" with
  | some c => c
  | none => JValue.obj (claimedCollectedContent item ++ legacyExtraContent item)

/-- The legacy transform as the specification and the claim word it: the
four legacy fields are collected when present as string arrays, other own
string-array fields follow under their own keys, and an already-present
content field is preferred over the reconstructed record. -/
def specTransformClaimed (item : JValue) : JValue :=
  JValue.obj (optField "version" (item.getField "version")
    ++ optField "date" (item.getField "date")
    ++ optField "type" (item.getField "type")
    ++ [("content", claimedFinalContent item)])

/-- The amended collection step: the four legacy fields are collected
whenever present as arrays, their element types unchecked. -/
def amendedCollectedContent (item : JValue) : List (String × JValue) :=
  ["highlights", "features", "improvements", "bugfixes"].filterMap
    (fun k => match item.getField k with
      | some (.arr xs) => some (k, JValue.arr xs)
      | _ => none)

/-- The amended extra-field scan: every own field whose value is an array
of strings and whose key is not reserved, in entries order. -/
def amendedExtraContent (item : JValue) : List (String × JValue) :=
  (jsEntries item).filter
    (fun kv => isStringArray kv.2 && !(reservedLegacyKeys.contains kv.1))

/-- The amended content value: a content field already present as a
non-null object (an array included) is preferred over the reconstructed
record; a content field of any other shape is ignored. -/
def amendedFinalContent (item : JValue) : JValue :=
  match item.getField "content" with
  | some (.obj fields) => JValue.obj fields
  | some (.arr xs) => JValue.arr xs
  | some _ => JValue.obj (amendedCollectedContent item ++ amendedExtraContent item)
  | none => JValue.obj (amendedCollectedContent item ++ amendedExtraContent item)

/-- The legacy transform as the amended claim words it. -/
def specTransformAmended (item : JValue) : JValue :=
  JValue.obj (optField "version" (item.getField "version")
    ++ optField "date" (item.getField "date")
    ++ optField "type" (item.getField "type")
    ++ [("content", amendedFinalContent item)])

/-- The legacy record of the worked example: flat highlights and features
fields holding string arrays. -/
def exampleLegacyItem : JValue :=
  .obj [("version", .str "1.0.0"), ("date", .str "2024-01-01T00:00:00Z"),
    ("type", .str "initial"), ("highlights", .arr [.str "a"]),
    ("features", .arr [.str "b"])]

/-- A legacy record whose highlights field is an array of numbers rather
than strings: the discriminating input for the collection step. -/
def exampleNumericHighlightsItem : JValue :=
  .obj [("version", .str "1.0.0"), ("date", .str "2024-01-01T00:00:00Z"),
    ("type", .str "initial"), ("highlights", .arr [.num 1])]

/-! ### The filter state controller and the URL (src/islands/FilterPanel.tsx) -/

/-- The delete calls of updateURL: every version, type and date entry is
removed from the query string, everything else is kept in order. -/
def clearFilterParams (params : List (String × String)) : List (String × String) :=
  params.filter (fun p => p.1 != "version" && p.1 != "type" && p.1 != "date")

/-- updateURL (src/islands/FilterPanel.tsx lines 34-57): clear the three
filter parameters, then set each field that is truthy; after the deletes a
set appends at the end, in the order version, type, date. -/
def updateURL (filters : FilterState) (params : List (String × String)) :
    List (String × String) :=
  let cleared := clearFilterParams params
  let withVersion :=
    match filters.version with
    | some v => if v ≠ "" then cleared ++ [("version", v)] else cleared
    | none => cleared
  let withType :=
    match filters.type with
    | some t => withVersion ++ [("type", releaseTypeToString t)]
    | none => withVersion
  match filters.dateRange with
  | some dr => withType ++ [("date", dateRangeToString dr)]
  | none => withType

/-- The mount-time read of the URL (src/islands/FilterPanel.tsx lines
64-87): each parameter is accepted only when truthy and a member of the
corresponding list — the available versions for version, the enumeration
strings for type and date (for those two, the truthiness test and the
membership cast coincide with a successful enumeration lookup, since the
empty string names no member). -/
def readURLFilters (availableVersions : List String) (params : List (String × String)) :
    FilterState :=
  { version :=
      match params.lookup "version" with
      | some v => if v != "" && availableVersions.contains v then some v else none
      | none => none,
    dateRange :=
      match params.lookup "date" with
      | some s => dateRangeOfString s
      | none => none,
    type :=
      match params.lookup "type" with
      | some s => releaseTypeOfString s
      | none => none }

/-- The filter state after the mount effect ran against prev: when the URL
contributed at least one field, the contributed fields override prev and
the rest survive (the object spread); otherwise prev is left untouched. -/
def mountFilters (availableVersions : List String) (params : List (String × String))
    (prev : FilterState) : FilterState :=
  let u := readURLFilters availableVersions params
  if u.version.isSome || u.dateRange.isSome || u.type.isSome then
    { version := u.version.or prev.version,
      dateRange := u.dateRange.or prev.dateRange,
      type := u.type.or prev.type }
  else prev

/-! ### Scroll state updates (src/islands/FilterPanel.tsx, StickyOutline) -/

/-- The scroll-tracking state.  The two passed sets are rendered as lists
of identifiers; only whole-field replacement is modelled. -/
structure ScrollState where
  activeRelease : Option String
  activeSection : Option String
  passedReleases : List String
  passedSections : List String
deriving DecidableEq, Repr

/-- A partial scroll-state update as the content-mapping variant consumes
it: for the nullish-coalescing reads, a null field, an undefined field and
an absent field are indistinguishable, so one Option layer suffices. -/
structure ScrollUpdate where
  activeRelease : Option String := none
  activeSection : Option String := none
  passedReleases : Option (List String) := none
  passedSections : Option (List String) := none
deriving DecidableEq, Repr

/-- The coalesced state application of the content-mapping variant
(src/islands/FilterPanel.tsx lines 381-389): each incoming field falls
back to the previous value when null or undefined.  The animation-frame
scheduling around it is not modelled; only the state function applied to
the previous state is. -/
def applyScrollUpdate (prev : ScrollState) (u : ScrollUpdate) : ScrollState :=
  { activeRelease := u.activeRelease.or prev.activeRelease,
    activeSection := u.activeSection.or prev.activeSection,
    passedReleases := u.passedReleases.getD prev.passedReleases,
    passedSections := u.passedSections.getD prev.passedSections }

/-- A partial scroll-state update as the legacy variant consumes it: the
object spread distinguishes an absent key (outer none, previous value
kept) from a key present with a null or undefined value (inner none,
previous value overwritten). -/
structure LegacyScrollUpdate where
  activeRelease : Option (Option String) := none
  activeSection : Option (Option String) := none
  passedReleases : Option (List String) := none
  passedSections : Option (List String) := none
deriving DecidableEq, Repr

/-- The coalesced state application of the legacy variant
(src/islands/FilterPanel.tsx lines 1130-1135): a plain object spread of
the update over the previous state. -/
def applyLegacyUpdate (prev : ScrollState) (u : LegacyScrollUpdate) : ScrollState :=
  { activeRelease := match u.activeRelease with | some x => x | none => prev.activeRelease,
    activeSection := match u.activeSection with | some x => x | none => prev.activeSection,
    passedReleases := u.passedReleases.getD prev.passedReleases,
    passedSections := u.passedSections.getD prev.passedSections }

/-! ### DOM-level filtering in the outline navigator (applyFilters) -/

/-- One rendered release card as the DOM filter pass sees it: the three
data attributes, all plain strings. -/
structure ReleaseCard where
  releaseVersion : String
  releaseType : String
  releaseDate : String
deriving DecidableEq, Repr

/-- The per-card visibility decision of applyFilters
(src/islands/FilterPanel.tsx lines 584-627): the version and type guards
mirror filterReleases on the attribute strings; the date guard runs only
when both a date-range filter and a truthy date attribute exist, and its
older arm keeps a card whose year is NaN, because a NaN comparison is
false. -/
def domShouldShow (filters : FilterState) (currentYear : Int) (card : ReleaseCard) : Bool :=
  (match filters.version with
   | some v => !(v != "" && card.releaseVersion != v)
   | none => true)
  && (match filters.type with
      | some t => !(card.releaseType != releaseTypeToString t)
      | none => true)
  && (match filters.dateRange with
      | some dr =>
        if card.releaseDate == "" then true
        else
          match dr with
          | .thisYear => !(dateGetFullYear card.releaseDate != some currentYear)
          | .lastYear => !(dateGetFullYear card.releaseDate != some (currentYear - 1))
          | .older =>
            match dateGetFullYear card.releaseDate with
            | some releaseYear => !(decide (releaseYear ≥ currentYear - 1))
            | none => true
      | none => true)

/-- The payload of the filtersChanged custom event. -/
structure FiltersChangedDetail where
  hasResults : Bool
  visibleCount : Nat
deriving DecidableEq, Repr

/-- applyFilters (src/islands/FilterPanel.tsx lines 571-637) over the
release cards present in the DOM: the cards left visible, and the event
detail dispatched afterwards — the visible count and a has-results flag
that is the positivity of that count. -/
def applyFilters (filters : FilterState) (currentYear : Int) (cards : List ReleaseCard) :
    List ReleaseCard × FiltersChangedDetail :=
  let visible := cards.filter (domShouldShow filters currentYear)
  (visible, { hasResults := decide (visible.length > 0), visibleCount := visible.length })

/-! ### Lemmas: the dotted-numeric segment comparison -/





theorem cmpSegs_nil_left (ys : List Int) : cmpSegs [] ys = cmpNilTail ys := rfl

theorem cmpSegs_nil_right (xs : List Int) : cmpSegs xs [] = cmpTailNil xs := by
  cases xs <;> rfl

theorem cmpSegs_uniform (a b : List Int) (h : ¬(a = [] ∧ b = [])) :
    cmpSegs a b =
      if hdSeg a > hdSeg b then 1
      else if hdSeg a < hdSeg b then -1
      else cmpSegs (tlSeg a) (tlSeg b) := by
  match a, b with
  | [], [] => exact absurd ⟨rfl, rfl⟩ h
  | x :: xs, [] => simp [cmpSegs, hdSeg, tlSeg, cmpSegs_nil_right]
  | [], y :: ys => simp [cmpSegs, cmpNilTail, hdSeg, tlSeg]
  | x :: xs, y :: ys => simp [cmpSegs, hdSeg, tlSeg]

theorem cmpSegs_gt (a b : List Int) (hab : ¬(a = [] ∧ b = [])) (h : hdSeg a > hdSeg b) :
    cmpSegs a b = 1 := by
  rw [cmpSegs_uniform a b hab, if_pos h]

theorem cmpSegs_lt (a b : List Int) (hab : ¬(a = [] ∧ b = [])) (h : hdSeg a < hdSeg b) :
    cmpSegs a b = -1 := by
  rw [cmpSegs_uniform a b hab, if_neg (by omega), if_pos h]

theorem cmpSegs_eq_step (a b : List Int) (hab : ¬(a = [] ∧ b = [])) (h : hdSeg a = hdSeg b) :
    cmpSegs a b = cmpSegs (tlSeg a) (tlSeg b) := by
  rw [cmpSegs_uniform a b hab, if_neg (by omega), if_neg (by omega)]

theorem tlSeg_length_le (a : List Int) : (tlSeg a).length ≤ a.length := by
  cases a <;> simp [tlSeg]

theorem tlSeg_cons (x : Int) (xs : List Int) : tlSeg (x :: xs) = xs := rfl

theorem tlSeg_length_lt (a b : List Int) (hab : ¬(a = [] ∧ b = [])) :
    (tlSeg a).length + (tlSeg b).length + 1 ≤ a.length + b.length := by
  rcases not_and_or.mp hab with ha | hb
  · cases a with
    | nil => exact absurd rfl ha
    | cons x xs =>
      have h1 := tlSeg_length_le b
      rw [tlSeg_cons, List.length_cons]
      omega
  · cases b with
    | nil => exact absurd rfl hb
    | cons y ys =>
      have h1 := tlSeg_length_le a
      rw [tlSeg_cons, List.length_cons]
      omega

theorem cmpSegs_neg : ∀ (a b : List Int), cmpSegs b a = -(cmpSegs a b) := by
  suffices H : ∀ (n : Nat) (a b : List Int), a.length + b.length ≤ n →
      cmpSegs b a = -(cmpSegs a b) by
    intro a b; exact H (a.length + b.length) a b le_rfl
  intro n
  induction n with
  | zero =>
    intro a b h
    match a, b with
    | [], [] => simp [cmpSegs, cmpNilTail]
    | x :: xs, _ => simp at h
    | [], y :: ys => simp at h
  | succ n ih =>
    intro a b h
    by_cases hab : a = [] ∧ b = []
    · obtain ⟨ha, hb⟩ := hab; subst ha; subst hb; simp [cmpSegs, cmpNilTail]
    · have hba : ¬(b = [] ∧ a = []) := fun p => hab ⟨p.2, p.1⟩
      rcases lt_trichotomy (hdSeg a) (hdSeg b) with hlt | heq | hgt
      · rw [cmpSegs_lt a b hab hlt, cmpSegs_gt b a hba hlt]
        norm_num
      · rw [cmpSegs_eq_step a b hab heq, cmpSegs_eq_step b a hba heq.symm]
        have hlen : (tlSeg a).length + (tlSeg b).length ≤ n := by
          have := tlSeg_length_lt a b hab; omega
        exact ih _ _ hlen
      · rw [cmpSegs_gt a b hab hgt, cmpSegs_lt b a hba hgt]

theorem cmpSegs_le_destruct (a b : List Int) (h : cmpSegs a b ≤ 0) :
    hdSeg a ≤ hdSeg b ∧ (hdSeg a = hdSeg b → cmpSegs (tlSeg a) (tlSeg b) ≤ 0) := by
  by_cases hab : a = [] ∧ b = []
  · obtain ⟨ha, hb⟩ := hab; subst ha; subst hb
    exact ⟨le_rfl, fun _ => by simp [cmpSegs, cmpNilTail, tlSeg]⟩
  · rcases lt_trichotomy (hdSeg a) (hdSeg b) with hlt | heq | hgt
    · exact ⟨hlt.le, fun he => absurd he (by omega)⟩
    · rw [cmpSegs_eq_step a b hab heq] at h
      exact ⟨heq.le, fun _ => h⟩
    · rw [cmpSegs_gt a b hab hgt] at h; omega

theorem cmpSegs_le_build (a b : List Int) (h1 : hdSeg a ≤ hdSeg b)
    (h2 : hdSeg a = hdSeg b → cmpSegs (tlSeg a) (tlSeg b) ≤ 0) :
    cmpSegs a b ≤ 0 := by
  by_cases hab : a = [] ∧ b = []
  · obtain ⟨ha, hb⟩ := hab; subst ha; subst hb; simp [cmpSegs, cmpNilTail]
  · rcases lt_or_eq_of_le h1 with hlt | heq
    · rw [cmpSegs_lt a b hab hlt]; omega
    · rw [cmpSegs_eq_step a b hab heq]
      exact h2 heq

theorem cmpSegs_trans : ∀ (a b c : List Int),
    cmpSegs a b ≤ 0 → cmpSegs b c ≤ 0 → cmpSegs a c ≤ 0 := by
  suffices H : ∀ (n : Nat) (a b c : List Int), a.length + b.length + c.length ≤ n →
      cmpSegs a b ≤ 0 → cmpSegs b c ≤ 0 → cmpSegs a c ≤ 0 by
    intro a b c; exact H (a.length + b.length + c.length) a b c le_rfl
  intro n
  induction n with
  | zero =>
    intro a b c h hab hbc
    match a, b, c with
    | [], [], [] => simp [cmpSegs, cmpNilTail]
    | x :: xs, _, _ => simp at h
    | [], y :: ys, _ => simp at h
    | [], [], z :: zs => simp at h
  | succ n ih =>
    intro a b c h hab hbc
    by_cases hac : a = [] ∧ c = []
    · obtain ⟨ha, hc⟩ := hac; subst ha; subst hc; simp [cmpSegs, cmpNilTail]
    · obtain ⟨e1, e2⟩ := cmpSegs_le_destruct a b hab
      obtain ⟨e3, e4⟩ := cmpSegs_le_destruct b c hbc
      apply cmpSegs_le_build
      · omega
      · intro he
        have heq1 : hdSeg a = hdSeg b := by omega
        have heq2 : hdSeg b = hdSeg c := by omega
        have hlen : (tlSeg a).length + (tlSeg b).length + (tlSeg c).length ≤ n := by
          have g1 := tlSeg_length_lt a c hac
          have g2 := tlSeg_length_le b
          omega
        exact ih _ _ _ hlen (e2 heq1) (e4 heq2)

theorem cmpSegs_self : ∀ (a : List Int), cmpSegs a a = 0 := by
  intro a
  induction a with
  | nil => simp [cmpSegs, cmpNilTail]
  | cons x xs ih => simp [cmpSegs, ih]

/-! ### Lemmas: stable insertion into a sorted list, with local transitivity -/

theorem sorted_orderedInsert_local {α : Type} (r : α → α → Prop) [DecidableRel r] (P : α → Prop)
    (total : ∀ x y, r x y ∨ r y x)
    (htrans : ∀ x y z, P x → P y → P z → r x y → r y z → r x z)
    (a : α) (ha : P a) :
    ∀ l, (∀ x ∈ l, P x) → l.Sorted r → (List.orderedInsert r a l).Sorted r := by
  intro l
  induction l with
  | nil =>
    intro _ _
    simp [List.orderedInsert]
  | cons b l ih =>
    intro hP hs
    rw [List.orderedInsert]
    split
    · rename_i hab
      rw [List.sorted_cons]
      refine ⟨?_, hs⟩
      intro z hz
      rcases List.mem_cons.mp hz with rfl | hzl
      · exact hab
      · exact htrans a b z ha (hP b (List.mem_cons_self b l))
          (hP z (List.mem_cons_of_mem b hzl)) hab ((List.sorted_cons.mp hs).1 z hzl)
    · rename_i hnab
      rw [List.sorted_cons]
      constructor
      · intro z hz
        have hz2 : z ∈ a :: l := (List.perm_orderedInsert r a l).subset hz
        rcases List.mem_cons.mp hz2 with rfl | hzl
        · exact (total z b).resolve_left hnab
        · exact (List.sorted_cons.mp hs).1 z hzl
      · exact ih (fun x hx => hP x (List.mem_cons_of_mem b hx)) (List.sorted_cons.mp hs).2

theorem sorted_insertionSort_local {α : Type} (r : α → α → Prop) [DecidableRel r]
    (P : α → Prop)
    (total : ∀ x y, r x y ∨ r y x)
    (htrans : ∀ x y z, P x → P y → P z → r x y → r y z → r x z) :
    ∀ l : List α, (∀ x ∈ l, P x) → (List.insertionSort r l).Sorted r := by
  intro l
  induction l with
  | nil =>
    intro _
    simp [List.insertionSort]
  | cons a l ih =>
    intro hP
    rw [List.insertionSort]
    exact sorted_orderedInsert_local r P total htrans a (hP a (List.mem_cons_self a l))
      (List.insertionSort r l)
      (fun x hx => hP x (List.mem_cons_of_mem a ((List.perm_insertionSort r l).subset hx)))
      (ih (fun x hx => hP x (List.mem_cons_of_mem a hx)))

/-! ### Lemmas: the release comparator -/

theorem compareVersions_neg (a b : String) : compareVersions b a = -(compareVersions a b) :=
  cmpSegs_neg (versionSegments a) (versionSegments b)

theorem compareVersions_trans (a b c : String) (h1 : compareVersions a b ≤ 0)
    (h2 : compareVersions b c ≤ 0) : compareVersions a c ≤ 0 :=
  cmpSegs_trans (versionSegments a) (versionSegments b) (versionSegments c) h1 h2

theorem releaseCompare_neg (a b : Release) : releaseCompare b a = -(releaseCompare a b) := by
  unfold releaseCompare
  cases ha : dateGetTime a.date with
  | none => cases hb : dateGetTime b.date <;> simp
  | some ta =>
    cases hb : dateGetTime b.date with
    | none => simp
    | some tb =>
      simp only
      by_cases hd : tb - ta = 0
      · rw [if_neg (by omega), if_neg (by omega)]
        exact compareVersions_neg b.version a.version
      · rw [if_pos (by omega), if_pos (by omega)]
        omega

theorem releaseCompare_total (a b : Release) :
    releaseCompare a b ≤ 0 ∨ releaseCompare b a ≤ 0 := by
  have := releaseCompare_neg a b
  omega

theorem releaseCompare_le_iff (a b : Release) (ta tb : Int)
    (ha : dateGetTime a.date = some ta) (hb : dateGetTime b.date = some tb) :
    releaseCompare a b ≤ 0 ↔
      (tb < ta ∨ (ta = tb ∧ compareVersions b.version a.version ≤ 0)) := by
  unfold releaseCompare
  rw [ha, hb]
  simp only
  by_cases hd : tb - ta = 0
  · rw [if_neg (by omega)]
    constructor
    · intro h; exact Or.inr ⟨by omega, h⟩
    · intro h
      rcases h with h | ⟨_, h⟩
      · omega
      · exact h
  · rw [if_pos (by omega)]
    constructor
    · intro h; exact Or.inl (by omega)
    · intro h
      rcases h with h | ⟨he, _⟩
      · omega
      · omega

theorem releaseCompare_trans_valid (a b c : Release)
    (ha : (dateGetTime a.date).isSome = true) (hb : (dateGetTime b.date).isSome = true)
    (hc : (dateGetTime c.date).isSome = true)
    (h1 : releaseCompare a b ≤ 0) (h2 : releaseCompare b c ≤ 0) :
    releaseCompare a c ≤ 0 := by
  obtain ⟨ta, hta⟩ := Option.isSome_iff_exists.mp ha
  obtain ⟨tb, htb⟩ := Option.isSome_iff_exists.mp hb
  obtain ⟨tc, htc⟩ := Option.isSome_iff_exists.mp hc
  rw [releaseCompare_le_iff a b ta tb hta htb] at h1
  rw [releaseCompare_le_iff b c tb tc htb htc] at h2
  rw [releaseCompare_le_iff a c ta tc hta htc]
  rcases h1 with h1 | ⟨h1e, h1v⟩
  · rcases h2 with h2 | ⟨h2e, h2v⟩
    · exact Or.inl (by omega)
    · exact Or.inl (by omega)
  · rcases h2 with h2 | ⟨h2e, h2v⟩
    · exact Or.inl (by omega)
    · exact Or.inr ⟨by omega, compareVersions_trans c.version b.version a.version h2v h1v⟩

/-! ### Lemmas: a schema-valid date string parses as a Date -/

theorem parseTimePart_true_of_false (cs : List Char) (x : Nat × Nat × Nat × Nat)
    (h : parseTimePart false cs = some x) : parseTimePart true cs = some x := by
  unfold parseTimePart at h ⊢
  split at h
  · simp at h
  · exact h
  · simp at h

theorem jsParseDate_isSome_of_zod (s : String) (h : zodDatetimeValid s = true) :
    (jsParseDate s).isSome = true := by
  unfold zodDatetimeValid at h
  obtain ⟨p, hp⟩ := Option.isSome_iff_exists.mp h
  unfold zodParseDatetime at hp
  unfold jsParseDate
  split at hp
  · rename_i ds ts hT
    rw [hT]
    cases hd : parseDatePart ds with
    | none => rw [hd] at hp; simp at hp
    | some ymd =>
      rw [hd] at hp
      simp only at hp
      split at hp
      · rename_i hZ
        cases ht : parseTimePart false ts.dropLast with
        | none => rw [ht] at hp; simp at hp
        | some hmsf =>
          simp [hd, hZ, parseTimePart_true_of_false ts.dropLast hmsf ht]
      · simp at hp
  · rename_i hT
    simp at hp

theorem releaseSchemaValid_date (r : Release) (h : releaseSchemaValid r = true) :
    (dateGetTime r.date).isSome = true := by
  unfold releaseSchemaValid at h
  have hz : zodDatetimeValid r.date = true := by
    cases hv : zodDatetimeValid r.date
    · rw [hv] at h; simp at h
    · rfl
  obtain ⟨p, hp⟩ := Option.isSome_iff_exists.mp (jsParseDate_isSome_of_zod r.date hz)
  unfold dateGetTime
  rw [hp]
  rfl

/-- C1: sorting a validated release list is a permutation ordered by date
descending (most recent first), ties broken by version descending under
dotted-numeric-segment comparison; in particular, of two releases with
equal dates and versions 1.9.0 and 1.10.0, the one with version 1.10.0
sorts first (10 beats 9 as an integer). -/
theorem sortReleases_ordering :
    (∀ rs : List Release, (∀ r ∈ rs, releaseSchemaValid r = true) →
      (sortReleases rs).Perm rs ∧ (sortReleases rs).Sorted specSortedBefore)
    ∧ sortReleases
        [⟨"1.9.0", "2024-01-01T00:00:00Z", .minor, []⟩,
          ⟨"1.10.0", "2024-01-01T00:00:00Z", .minor, []⟩]
      = [⟨"1.10.0", "2024-01-01T00:00:00Z", .minor, []⟩,
          ⟨"1.9.0", "2024-01-01T00:00:00Z", .minor, []⟩] := by
  constructor
  · intro rs hval
    refine ⟨List.perm_insertionSort _ rs, ?_⟩
    have hval2 : ∀ r ∈ rs, (dateGetTime r.date).isSome = true :=
      fun r hr => releaseSchemaValid_date r (hval r hr)
    have hsorted : (sortReleases rs).Sorted (fun a b => releaseCompare a b ≤ 0) :=
      sorted_insertionSort_local _ (fun r => (dateGetTime r.date).isSome = true)
        releaseCompare_total
        (fun x y z hx hy hz => releaseCompare_trans_valid x y z hx hy hz)
        rs hval2
    have hmem : ∀ x ∈ sortReleases rs, (dateGetTime x.date).isSome = true :=
      fun x hx => hval2 x ((List.perm_insertionSort _ rs).subset hx)
    refine List.Pairwise.imp_of_mem ?_ hsorted
    intro a b hma hmb hab
    obtain ⟨ta, hta⟩ := Option.isSome_iff_exists.mp (hmem a hma)
    obtain ⟨tb, htb⟩ := Option.isSome_iff_exists.mp (hmem b hmb)
    rw [releaseCompare_le_iff a b ta tb hta htb] at hab
    refine ⟨ta, tb, hta, htb, ?_⟩
    have hneg := compareVersions_neg b.version a.version
    rcases hab with hlt | ⟨heq, hle⟩
    · exact Or.inl hlt
    · exact Or.inr ⟨heq, by omega⟩
  · decide

/-- C1 witness: the ordering theorem applied to the concrete two-release
list, its validity hypothesis discharged by computation. -/
theorem sortReleases_ordering_witness :
    (sortReleases
        [⟨"1.9.0", "2024-01-01T00:00:00Z", .minor, []⟩,
          ⟨"1.10.0", "2024-01-01T00:00:00Z", .minor, []⟩]).Perm
        [⟨"1.9.0", "2024-01-01T00:00:00Z", .minor, []⟩,
          ⟨"1.10.0", "2024-01-01T00:00:00Z", .minor, []⟩]
    ∧ (sortReleases
        [⟨"1.9.0", "2024-01-01T00:00:00Z", .minor, []⟩,
          ⟨"1.10.0", "2024-01-01T00:00:00Z", .minor, []⟩]).Sorted specSortedBefore :=
  sortReleases_ordering.1
    [⟨"1.9.0", "2024-01-01T00:00:00Z", .minor, []⟩,
      ⟨"1.10.0", "2024-01-01T00:00:00Z", .minor, []⟩]
    (by decide)

/-! ### Lemmas and claims: filtering -/

theorem releasePasses_eq_specMatchesAmended (filters : FilterState) (currentYear : Int)
    (release : Release) :
    releasePasses filters currentYear release = specMatchesAmended filters currentYear release := by
  unfold releasePasses specMatchesAmended
  obtain ⟨fv, fd, ft⟩ := filters
  cases fv with
  | none =>
    cases fd <;> cases ft <;> simp [bne]
  | some v =>
    by_cases hv : v = ""
    · subst hv
      cases fd <;> cases ft <;> simp [bne]
    · have hvf : (v == "") = false := beq_eq_false_iff_ne.mpr hv
      cases fd <;> cases ft <;>
        simp [hvf, Bool.not_and, bne, beq_iff_eq, decide_eq_false hv]

/-- C2 counterexample: a FilterState whose version field is present but
holds the empty string is a non-absent version constraint that no release
with a non-empty version satisfies, yet filterReleases keeps every
release: the code result differs from the subsequence satisfying the
stated matching rule. -/
theorem filterReleases_counterexample :
    filterReleases [⟨"1.0.0", "2024-01-01T00:00:00Z", .initial, []⟩]
        ⟨some "", none, none⟩ 2024
      = [⟨"1.0.0", "2024-01-01T00:00:00Z", .initial, []⟩]
    ∧ ([⟨"1.0.0", "2024-01-01T00:00:00Z", .initial, []⟩].filter
        (specMatches ⟨some "", none, none⟩ 2024))
      = []
    ∧ filterReleases [⟨"1.0.0", "2024-01-01T00:00:00Z", .initial, []⟩]
        ⟨some "", none, none⟩ 2024
      ≠ [⟨"1.0.0", "2024-01-01T00:00:00Z", .initial, []⟩].filter
        (specMatches ⟨some "", none, none⟩ 2024) := by
  refine ⟨rfl, rfl, ?_⟩
  decide

/-- C2 amended: filterReleases returns exactly the subsequence of releases
satisfying every non-absent constraint, where a version constraint holding
the empty string counts as absent; the result is an order-preserving
subsequence of the input (the function is pure, List.filter neither
mutates nor reorders), and the empty FilterState keeps every release in
identical order. -/
theorem filterReleases_spec :
    ∀ (releases : List Release) (filters : FilterState) (currentYear : Int),
      filterReleases releases filters currentYear
          = releases.filter (specMatchesAmended filters currentYear)
        ∧ (filterReleases releases filters currentYear).Sublist releases
        ∧ filterReleases releases ⟨none, none, none⟩ currentYear = releases := by
  intro releases filters currentYear
  refine ⟨?_, List.filter_sublist releases, ?_⟩
  · exact List.filter_congr
      (fun r _ => releasePasses_eq_specMatchesAmended filters currentYear r)
  · apply List.filter_eq_self.mpr
    intro r _
    rfl

/-- C9: an empty-string version filter imposes no constraint — the guard
tests truthiness, not presence, so every release passes. -/
theorem filterReleases_emptyVersion :
    ∀ (releases : List Release) (currentYear : Int),
      filterReleases releases ⟨some "", none, none⟩ currentYear = releases := by
  intro releases currentYear
  apply List.filter_eq_self.mpr
  intro r _
  rfl

/-! ### Lemmas and claims: non-numeric segments and the date ranges -/

theorem map_eq_of_zip {α β : Type} (f : α → β) :
    ∀ (l1 l2 : List α), l1.length = l2.length →
      (∀ pq ∈ List.zip l1 l2, f pq.1 = f pq.2) → l1.map f = l2.map f := by
  intro l1
  induction l1 with
  | nil =>
    intro l2 hlen _
    cases l2 with
    | nil => rfl
    | cons y ys => simp at hlen
  | cons x xs ih =>
    intro l2 hlen hzip
    cases l2 with
    | nil => simp at hlen
    | cons y ys =>
      have hx : f x = f y := hzip (x, y) (by simp [List.zip_cons_cons])
      have hrest := ih ys (by simpa using hlen)
        (fun pq hpq => hzip pq (by simp [List.zip_cons_cons, hpq]))
      simp [hx, hrest]

/-- C10: when two version strings split into equally many segments and
every pair of corresponding segments either converts to the same integer
or fails to convert on both sides (both NaN), compareVersions returns 0:
every NaN segment is coerced to 0 before comparison, so such versions are
indistinguishable in the sort tie-break.  In particular 1.a and 1.b
compare equal. -/
theorem compareVersions_nonNumeric :
    ∀ (a b : String),
      (splitOnChar '.' a.toList).length = (splitOnChar '.' b.toList).length →
      (∀ pq ∈ List.zip (splitOnChar '.' a.toList) (splitOnChar '.' b.toList),
        (∃ k, jsNumberOfSegment pq.1 = some k ∧ jsNumberOfSegment pq.2 = some k)
          ∨ (jsNumberOfSegment pq.1 = none ∧ jsNumberOfSegment pq.2 = none)) →
      compareVersions a b = 0 := by
  intro a b hlen hseg
  unfold compareVersions versionSegments
  have heq : (splitOnChar '.' a.toList).map (fun s => (jsNumberOfSegment s).getD 0)
      = (splitOnChar '.' b.toList).map (fun s => (jsNumberOfSegment s).getD 0) := by
    apply map_eq_of_zip _ _ _ hlen
    intro pq hpq
    rcases hseg pq hpq with ⟨k, h1, h2⟩ | ⟨h1, h2⟩
    · rw [h1, h2]
    · rw [h1, h2]
  rw [heq]
  exact cmpSegs_self _

/-- C10 witness: the segment-wise hypotheses hold of the versions 1.a and
1.b, whose second segments are both NaN, and the comparison yields 0. -/
theorem compareVersions_nonNumeric_witness :
    compareVersions "1.a" "1.b" = 0 :=
  compareVersions_nonNumeric "1.a" "1.b" (by decide) (by decide)

/-- C4: the date-range predicates compare the UTC year of the release date
with the caller-supplied current year — thisYear means equality, lastYear
means current year minus one, older means strictly less than current year
minus one — so a release dated strictly after the current year matches no
range; with the current year 2025, a release dated 2025-01-01 is in
thisYear, 2024-01-01 in lastYear, 2022-01-01 in older, and 2026-01-01
matches none of the three. -/
theorem isInDateRange_spec :
    (∀ (d : String) (y : Int),
      (isInDateRange d .thisYear y = true ↔ dateGetFullYear d = some y)
      ∧ (isInDateRange d .lastYear y = true ↔ dateGetFullYear d = some (y - 1))
      ∧ (isInDateRange d .older y = true ↔
          ∃ ry, dateGetFullYear d = some ry ∧ ry < y - 1)
      ∧ (∀ ry, dateGetFullYear d = some ry → y < ry →
          ∀ range, isInDateRange d range y = false))
    ∧ isInDateRange "2025-01-01T00:00:00Z" .thisYear 2025 = true
    ∧ isInDateRange "2024-01-01T00:00:00Z" .lastYear 2025 = true
    ∧ isInDateRange "2022-01-01T00:00:00Z" .older 2025 = true
    ∧ (∀ range, isInDateRange "2026-01-01T00:00:00Z" range 2025 = false) := by
  refine ⟨?_, by decide, by decide, by decide, by intro range; cases range <;> decide⟩
  intro d y
  refine ⟨?_, ?_, ?_, ?_⟩
  · simp [isInDateRange]
  · simp [isInDateRange]
  · unfold isInDateRange
    cases hd : dateGetFullYear d with
    | none => simp
    | some ry => simp [hd]
  · intro ry hry hlt range
    cases range <;> simp [isInDateRange, hry] <;> omega

/-- C4 witness: the range characterisation applied to the 2026 release
date with current year 2025, yielding the no-range-matches edge case. -/
theorem isInDateRange_spec_witness :
    isInDateRange "2026-01-01T00:00:00Z" DateRange.older 2025 = false :=
  (isInDateRange_spec.1 "2026-01-01T00:00:00Z" 2025).2.2.2 2026 (by decide) (by decide)
    DateRange.older

/-! ### Lemmas and claims: validation failure on an empty version -/

theorem optionMapList_eq_none_of_mem {α β : Type} (f : α → Option β) (x : α) :
    ∀ l : List α, x ∈ l → f x = none → optionMapList f l = none := by
  intro l
  induction l with
  | nil => intro h; cases h
  | cons a l ih =>
    intro hmem hfx
    rcases List.mem_cons.mp hmem with rfl | hl
    · unfold optionMapList
      rw [hfx]
    · unfold optionMapList
      rw [ih hl hfx]
      cases f a <;> rfl

theorem lookup_optFields (v d t : Option JValue) (c : JValue) :
    List.lookup "version" (optField "version" v ++ optField "date" d
      ++ optField "type" t ++ [("content", c)]) = v := by
  cases v <;> cases d <;> cases t <;> simp [optField, List.lookup]

theorem transform_getField_version (item : JValue) :
    (transformLegacyItem item).getField "version" = item.getField "version" := by
  unfold transformLegacyItem
  rw [show ∀ (L : List (String × JValue)) (k : String),
      (JValue.obj L).getField k = List.lookup k L from fun L k => rfl]
  exact lookup_optFields _ _ _ _

/-- C5: an input array containing a record whose version field is the
empty string fails validation on the direct path (the min-length-1 check
fails) and on the legacy-recovery path (the transform copies the empty
version through), and loadReleases surfaces the single uniform failure
with no partial result. -/
theorem loadReleases_emptyVersion :
    ∀ (xs : List JValue) (item : JValue),
      item ∈ xs →
      item.getField "version" = some (.str "") →
      zodParseReleases (.arr xs) = none
        ∧ zodParseReleases (.arr (xs.map transformLegacyItem)) = none
        ∧ loadReleases (.arr xs) = .error "Failed to load release data" := by
  intro xs item hmem hver
  have hfail : zodParseRelease item = none := by
    unfold zodParseRelease
    rw [hver]
    simp [jstr]
  have hfail2 : zodParseRelease (transformLegacyItem item) = none := by
    unfold zodParseRelease
    rw [transform_getField_version, hver]
    simp [jstr]
  have h1 : zodParseReleases (.arr xs) = none :=
    optionMapList_eq_none_of_mem zodParseRelease item xs hmem hfail
  have h2 : zodParseReleases (.arr (xs.map transformLegacyItem)) = none :=
    optionMapList_eq_none_of_mem zodParseRelease (transformLegacyItem item) _
      (List.mem_map_of_mem _ hmem) hfail2
  refine ⟨h1, h2, ?_⟩
  unfold loadReleases
  rw [h1]
  simp only
  rw [h2]

/-- C5 witness: the failure theorem applied to a one-element array holding
an empty-version record. -/
theorem loadReleases_emptyVersion_witness :
    zodParseReleases (.arr [.obj [("version", JValue.str "")]]) = none
      ∧ zodParseReleases
          (.arr ([JValue.obj [("version", JValue.str "")]].map transformLegacyItem)) = none
      ∧ loadReleases (.arr [.obj [("version", JValue.str "")]])
        = .error "Failed to load release data" :=
  loadReleases_emptyVersion [.obj [("version", JValue.str "")]]
    (.obj [("version", JValue.str "")]) (List.mem_singleton.mpr rfl) rfl

/-! ### Lemmas and claims: the legacy transform against its description -/

/-- C3 counterexample: on a legacy record whose highlights field is an
array of numbers, the code transform copies the array into content (it
tests only Array.isArray), so re-validation and the whole load fail,
whereas the transform described by the claim drops the field (it is not a
string array) and the record would validate with empty content. -/
theorem legacyTransform_counterexample :
    transformLegacyItem exampleNumericHighlightsItem
        ≠ specTransformClaimed exampleNumericHighlightsItem
    ∧ zodParseRelease (transformLegacyItem exampleNumericHighlightsItem) = none
    ∧ zodParseRelease (specTransformClaimed exampleNumericHighlightsItem)
      = some ⟨"1.0.0", "2024-01-01T00:00:00Z", .initial, []⟩
    ∧ loadReleases (.arr [exampleNumericHighlightsItem])
      = .error "Failed to load release data" := by
  refine ⟨?_, rfl, rfl, rfl⟩
  intro h
  have h2 := congrArg zodParseRelease h
  rw [show zodParseRelease (transformLegacyItem exampleNumericHighlightsItem) = none from rfl,
    show zodParseRelease (specTransformClaimed exampleNumericHighlightsItem)
      = some ⟨"1.0.0", "2024-01-01T00:00:00Z", .initial, []⟩ from rfl] at h2
  cases h2

/-- C3 amended: when direct validation fails, the recovery transform
collects each of the four legacy fields present as an array (element types
unchecked — a non-string array is carried into content and then rejected
by re-validation), includes every other own string-array field under its
own key, and prefers an already-present content field when it is a
non-null object; the worked legacy example validates and normalizes to
content with highlights a and features b. -/
theorem legacyTransform_spec :
    (∀ item : JValue, transformLegacyItem item = specTransformAmended item)
    ∧ loadReleases (.arr [exampleLegacyItem])
      = .ok [⟨"1.0.0", "2024-01-01T00:00:00Z", .initial,
          [("highlights", ["a"]), ("features", ["b"])]⟩] := by
  constructor
  · intro item
    unfold transformLegacyItem specTransformAmended
    have hc : legacyCollectedContent item = amendedCollectedContent item := by
      unfold legacyCollectedContent amendedCollectedContent
      apply List.filterMap_congr
      intro k _
      cases item.getField k with
      | none => rfl
      | some v => cases v <;> rfl
    have he : legacyExtraContent item = amendedExtraContent item := by
      unfold legacyExtraContent amendedExtraContent
      apply List.filter_congr
      intro kv _
      exact Bool.and_comm _ _
    have hf : legacyFinalContent item = amendedFinalContent item := by
      unfold legacyFinalContent amendedFinalContent
      rw [hc, he]
      cases item.getField "content" with
      | none => rfl
      | some c => cases c <;> rfl
    rw [hf]
  · rfl

/-! ### Claims: scroll-state updates -/

/-- C7 counterexample: in the legacy variant the update is spread over the
previous state, so an update whose activeRelease key is present but null
(as the intersection handler always passes) clears a previously known
active release even though an active section is provided. -/
theorem scrollUpdate_counterexample :
    (⟨some none, some (some "release-1-0-0-features"), some [], some []⟩ :
        LegacyScrollUpdate).activeRelease = some none
    ∧ (applyLegacyUpdate ⟨some "1.0.0", none, [], []⟩
        ⟨some none, some (some "release-1-0-0-features"), some [], some []⟩).activeRelease
      = none
    ∧ (applyLegacyUpdate ⟨some "1.0.0", none, [], []⟩
        ⟨some none, some (some "release-1-0-0-features"), some [], some []⟩).activeRelease
      ≠ (⟨some "1.0.0", none, [], []⟩ : ScrollState).activeRelease := by
  refine ⟨rfl, rfl, ?_⟩
  decide

/-- C7 amended: in the content-mapping variant a null or undefined
activeRelease (or activeSection) in an update preserves the previous
value thanks to the nullish coalescing; in the legacy spread variant only
a field absent from the update preserves the previous value, while an
explicitly null field clears it. -/
theorem scrollUpdate_preserves :
    ∀ (prev : ScrollState) (u : ScrollUpdate) (lu : LegacyScrollUpdate),
      (u.activeRelease = none →
        (applyScrollUpdate prev u).activeRelease = prev.activeRelease)
      ∧ (u.activeSection = none →
        (applyScrollUpdate prev u).activeSection = prev.activeSection)
      ∧ (lu.activeRelease = none →
        (applyLegacyUpdate prev lu).activeRelease = prev.activeRelease)
      ∧ (lu.activeSection = none →
        (applyLegacyUpdate prev lu).activeSection = prev.activeSection) := by
  intro prev u lu
  refine ⟨?_, ?_, ?_, ?_⟩ <;> intro h <;>
    simp [applyScrollUpdate, applyLegacyUpdate, h]

/-- C7 witness: an update carrying only an active section leaves a
previously set active release unchanged under the content-mapping
variant. -/
theorem scrollUpdate_preserves_witness :
    (applyScrollUpdate ⟨some "1.0.0", none, [], []⟩
        ⟨none, some "release-1-0-0-features", none, none⟩).activeRelease
      = (⟨some "1.0.0", none, [], []⟩ : ScrollState).activeRelease :=
  (scrollUpdate_preserves ⟨some "1.0.0", none, [], []⟩
    ⟨none, some "release-1-0-0-features", none, none⟩
    ⟨none, none, none, none⟩).1 rfl

/-! ### Lemmas and claims: the DOM-level filter pass -/

theorem releaseTypeToString_beq (t u : ReleaseType) :
    (releaseTypeToString t == releaseTypeToString u) = (t == u) := by
  cases t <;> cases u <;> decide

/-- C8 counterexample: a card whose date attribute does not parse as a
date is kept visible under the older filter (the NaN comparison is
false), while the release with the same version, type and date fails the
filterReleases matching rule (isInDateRange is false on an invalid
date). -/
theorem applyFilters_counterexample :
    domShouldShow ⟨none, some .older, none⟩ 2025 ⟨"1.0.0", "initial", "notadate"⟩ = true
    ∧ releasePasses ⟨none, some .older, none⟩ 2025
        ⟨"1.0.0", "notadate", .initial, []⟩ = false := by
  constructor <;> rfl

/-- C8 amended: for a release card whose date attribute parses as a valid
date (as holds of every card rendered from a validated release) and whose
type attribute names a release type, the DOM visibility decision agrees
with the filterReleases matching rule on the release carrying the same
version, type and date; and the filtersChanged event carries the visible
count, with hasResults true exactly when some card stays visible. -/
theorem applyFilters_agrees :
    (∀ (card : ReleaseCard) (filters : FilterState) (currentYear : Int) (t : ReleaseType)
        (content : List (String × List String)),
      card.releaseType = releaseTypeToString t →
      (dateGetFullYear card.releaseDate).isSome = true →
      domShouldShow filters currentYear card
        = releasePasses filters currentYear
            ⟨card.releaseVersion, card.releaseDate, t, content⟩)
    ∧ (∀ (filters : FilterState) (currentYear : Int) (cards : List ReleaseCard),
        (applyFilters filters currentYear cards).1
            = cards.filter (domShouldShow filters currentYear)
          ∧ (applyFilters filters currentYear cards).2.visibleCount
            = (cards.filter (domShouldShow filters currentYear)).length
          ∧ ((applyFilters filters currentYear cards).2.hasResults = true ↔
              ∃ c ∈ cards, domShouldShow filters currentYear c = true)) := by
  constructor
  · intro card filters currentYear t content hty hdate
    obtain ⟨ry, hry⟩ := Option.isSome_iff_exists.mp hdate
    have hne : card.releaseDate ≠ "" := by
      intro he
      rw [he, show dateGetFullYear "" = none from rfl] at hry
      cases hry
    have hnef : (card.releaseDate == "") = false := beq_eq_false_iff_ne.mpr hne
    unfold domShouldShow releasePasses
    obtain ⟨fv, fd, ft⟩ := filters
    simp only
    have hver :
        (match fv with
          | some v => !(v != "" && card.releaseVersion != v)
          | none => true)
        = (match fv with
          | some v =>
            !(v != "" && (⟨card.releaseVersion, card.releaseDate, t, content⟩ :
                Release).version != v)
          | none => true) := rfl
    have htype :
        (match ft with
          | some u => !(card.releaseType != releaseTypeToString u)
          | none => true)
        = (match ft with
          | some u => !((⟨card.releaseVersion, card.releaseDate, t, content⟩ :
              Release).type != u)
          | none => true) := by
      cases ft with
      | none => rfl
      | some u => simp [bne, hty, releaseTypeToString_beq]
    have hdr :
        (match fd with
          | some dr =>
            if card.releaseDate == "" then true
            else
              match dr with
              | .thisYear => !(dateGetFullYear card.releaseDate != some currentYear)
              | .lastYear => !(dateGetFullYear card.releaseDate != some (currentYear - 1))
              | .older =>
                match dateGetFullYear card.releaseDate with
                | some releaseYear => !(decide (releaseYear ≥ currentYear - 1))
                | none => true
          | none => true)
        = (match fd with
          | some dr => !(!(isInDateRange (⟨card.releaseVersion, card.releaseDate, t,
              content⟩ : Release).date dr currentYear))
          | none => true) := by
      cases fd with
      | none => rfl
      | some dr =>
        simp only [hnef, Bool.false_eq_true, if_false]
        cases dr with
        | thisYear => simp [isInDateRange, bne]
        | lastYear => simp [isInDateRange, bne]
        | older =>
          simp only [isInDateRange, hry, Bool.not_not]
          rcases lt_or_le ry (currentYear - 1) with hlt | hge
          · rw [decide_eq_false (by omega : ¬(ry ≥ currentYear - 1)), decide_eq_true hlt]
            rfl
          · rw [decide_eq_true (by omega : ry ≥ currentYear - 1),
              decide_eq_false (by omega : ¬(ry < currentYear - 1))]
            rfl
    rw [hver, htype, hdr]
    cases fv <;> cases fd <;> cases ft <;> simp [Bool.and_assoc, Bool.and_comm,
      Bool.and_left_comm]
  · intro filters currentYear cards
    refine ⟨rfl, rfl, ?_⟩
    unfold applyFilters
    simp only [decide_eq_true_eq]
    constructor
    · intro h
      have hnil : cards.filter (domShouldShow filters currentYear) ≠ [] := by
        intro he
        rw [he] at h
        simp at h
      rcases List.exists_mem_of_ne_nil _ hnil with ⟨c, hc⟩
      exact ⟨c, (List.mem_filter.mp hc).1, (List.mem_filter.mp hc).2⟩
    · rintro ⟨c, hc, hdom⟩
      exact List.length_pos_of_mem (List.mem_filter.mpr ⟨hc, hdom⟩)

/-- C8 witness: the agreement theorem applied to a card rendered from a
validated minor release of this year, under the combined type and date
filter. -/
theorem applyFilters_agrees_witness :
    domShouldShow ⟨none, some .thisYear, some .minor⟩ 2024
        ⟨"1.0.0", "minor", "2024-01-01T00:00:00Z"⟩
      = releasePasses ⟨none, some .thisYear, some .minor⟩ 2024
          ⟨"1.0.0", "2024-01-01T00:00:00Z", .minor, []⟩ :=
  applyFilters_agrees.1 ⟨"1.0.0", "minor", "2024-01-01T00:00:00Z"⟩
    ⟨none, some .thisYear, some .minor⟩ 2024 .minor [] rfl (by decide)

/-! ### Lemmas and claims: the URL round trip -/

theorem releaseTypeOfString_toString (t : ReleaseType) :
    releaseTypeOfString (releaseTypeToString t) = some t := by
  cases t <;> rfl

theorem dateRangeOfString_toString (d : DateRange) :
    dateRangeOfString (dateRangeToString d) = some d := by
  cases d <;> rfl

theorem clearFilterParams_lookup (k : String)
    (hk : k = "version" ∨ k = "type" ∨ k = "date") :
    ∀ params : List (String × String), (clearFilterParams params).lookup k = none := by
  intro params
  induction params with
  | nil => rfl
  | cons p ps ih =>
    unfold clearFilterParams at ih ⊢
    rw [List.filter_cons]
    by_cases hp : (p.1 != "version" && p.1 != "type" && p.1 != "date") = true
    · rw [if_pos hp]
      have hne : (k == p.1) = false := by
        simp only [bne, Bool.and_eq_true, Bool.not_eq_true', beq_eq_false_iff_ne] at hp
        apply beq_eq_false_iff_ne.mpr
        rcases hk with rfl | rfl | rfl
        · exact fun he => hp.1.1 he.symm
        · exact fun he => hp.1.2 he.symm
        · exact fun he => hp.2 he.symm
      simp [List.lookup, hne, ih]
    · rw [if_neg hp]
      exact ih

theorem updateURL_lookup (filters : FilterState) (params : List (String × String)) :
    (updateURL filters params).lookup "version"
        = (if optStrTruthy filters.version then filters.version else none)
      ∧ (updateURL filters params).lookup "type" = filters.type.map releaseTypeToString
      ∧ (updateURL filters params).lookup "date" = filters.dateRange.map dateRangeToString := by
  obtain ⟨fv, fd, ft⟩ := filters
  unfold updateURL
  have hv := clearFilterParams_lookup "version" (Or.inl rfl) params
  have ht := clearFilterParams_lookup "type" (Or.inr (Or.inl rfl)) params
  have hd := clearFilterParams_lookup "date" (Or.inr (Or.inr rfl)) params
  cases fv with
  | none =>
    cases fd <;> cases ft <;>
      simp [List.lookup_append, hv, ht, hd, List.lookup, optStrTruthy]
  | some v =>
    by_cases hv0 : v = ""
    · subst hv0
      cases fd <;> cases ft <;>
        simp [List.lookup_append, hv, ht, hd, List.lookup, optStrTruthy]
    · cases fd <;> cases ft <;>
        simp [List.lookup_append, hv, ht, hd, List.lookup, optStrTruthy, hv0]

/-- C6 counterexample: with the empty string among the available versions,
the FilterState holding that empty version meets the stated membership
conditions, yet writing it to the URL records nothing (the guard tests
truthiness) and reading back yields the empty state: the round trip and
the reflects-every-non-absent-field property both fail. -/
theorem urlRoundtrip_counterexample :
    ("" ∈ ([""] : List String))
    ∧ mountFilters [""] (updateURL ⟨some "", none, none⟩ []) ⟨none, none, none⟩
      ≠ ⟨some "", none, none⟩
    ∧ (updateURL ⟨some "", none, none⟩ []).lookup "version" = none := by
  refine ⟨List.mem_singleton.mpr rfl, ?_, rfl⟩
  decide

/-- C6 amended: for a FilterState whose version, when present, is
non-empty and among the available versions, writing the state to the URL
and reading it back on mount over the empty previous state reproduces the
state; clearing all filters leaves none of the three query parameters;
and the rewritten query string carries exactly the truthy filter fields,
each under its parameter name. -/
theorem urlRoundtrip_spec :
    ∀ (params : List (String × String)) (avail : List String) (f : FilterState),
      (∀ v, f.version = some v → v ≠ "" ∧ v ∈ avail) →
      mountFilters avail (updateURL f params) ⟨none, none, none⟩ = f
        ∧ (∀ k, k = "version" ∨ k = "type" ∨ k = "date" →
            (updateURL ⟨none, none, none⟩ params).lookup k = none)
        ∧ (updateURL f params).lookup "version"
            = (if optStrTruthy f.version then f.version else none)
        ∧ (updateURL f params).lookup "type" = f.type.map releaseTypeToString
        ∧ (updateURL f params).lookup "date" = f.dateRange.map dateRangeToString := by
  intro params avail f hva
  obtain ⟨hLv, hLt, hLd⟩ := updateURL_lookup f params
  refine ⟨?_, ?_, hLv, hLt, hLd⟩
  · unfold mountFilters readURLFilters
    rw [hLv, hLt, hLd]
    obtain ⟨fv, fd, ft⟩ := f
    cases fv with
    | none =>
      cases fd <;> cases ft <;>
        simp [optStrTruthy, releaseTypeOfString_toString, dateRangeOfString_toString,
          Option.none_or]
    | some v =>
      obtain ⟨hv0, hvmem⟩ := hva v rfl
      have hvt : (v != "") = true := by
        simpa [bne] using hv0
      have hvc : avail.contains v = true := List.elem_eq_true_of_mem hvmem
      cases fd <;> cases ft <;>
        simp [optStrTruthy, hvt, hvc, hvmem, releaseTypeOfString_toString,
          dateRangeOfString_toString, Option.none_or]
  · intro k hk
    have h0 := updateURL_lookup ⟨none, none, none⟩ params
    rcases hk with rfl | rfl | rfl
    · exact h0.1
    · exact h0.2.1
    · exact h0.2.2

/-- C6 witness: the round-trip theorem applied to the worked example
FilterState carrying a minor type and the this-year range. -/
theorem urlRoundtrip_spec_witness :
    mountFilters [] (updateURL ⟨none, some .thisYear, some .minor⟩ []) ⟨none, none, none⟩
      = ⟨none, some .thisYear, some .minor⟩ :=
  (urlRoundtrip_spec [] [] ⟨none, some .thisYear, some .minor⟩
    (fun _ h => nomatch h)).1
